import Mathlib

/-!
Verification of the skew-T log-P diagram engine described by the spec of
this repository. The notebooks delegate the numerical core (coordinate
transform, LCL solving, parcel profile, CAPE/CIN integration, barb
placement) to an external library, so the core is modelled here from the
spec and the claims are settled against that model.
-/

namespace SkewTCore

/-- Modelled from the spec: the diagram configuration record (§6).
`skewFactor` stands for `tan(rotation)`; the remaining fields parametrize
isopleth sampling and wind-barb placement. The source notebook only passes
`rotation=45` and a barb stride to the external library. -/
structure DiagramConfig where
  skewFactor : ℝ
  pTop : ℝ
  pBottom : ℝ
  dryThetas : List ℝ
  samplePs : List ℝ
  barbStride : ℕ
  barbOffset : ℝ
  barbRefTemp : ℝ

/-- Modelled from the spec: `SkewTransform.to_screen` (§4.1). The missing
code is the skewed projection the external plotting library installs.
Vertical axis `y = -log p`, horizontal `x = T + skewFactor * y`. -/
noncomputable def to_screen (cfg : DiagramConfig) (p T : ℝ) : ℝ × ℝ :=
  let y := -Real.log p
  (T + cfg.skewFactor * y, y)

/-- Modelled from the spec: `SkewTransform.to_physical` (§4.1), the exact
analytic inverse: `T = x - skewFactor * y`, `p = exp (-y)`. -/
noncomputable def to_physical (cfg : DiagramConfig) (q : ℝ × ℝ) : ℝ × ℝ :=
  (Real.exp (-q.2), q.1 - cfg.skewFactor * q.2)

end SkewTCore

/-- C1: for every valid physical point (p, T) with p > 0,
`to_physical (to_screen p T)` returns exactly (p, T) (hence within 1e-6),
and in the other direction `to_screen (to_physical q) = q` for every screen
point: the two maps are mutual analytic inverses. -/
theorem skew_transform_round_trip (cfg : SkewTCore.DiagramConfig)
    (p T : ℝ) (q : ℝ × ℝ) (hp : 0 < p) :
    SkewTCore.to_physical cfg (SkewTCore.to_screen cfg p T) = (p, T) ∧
    SkewTCore.to_screen cfg (SkewTCore.to_physical cfg q).1
      (SkewTCore.to_physical cfg q).2 = q := by
  obtain ⟨x, y⟩ := q
  constructor
  · simp only [SkewTCore.to_screen, SkewTCore.to_physical, neg_neg]
    rw [Real.exp_log hp]
    congr 1
    ring
  · simp only [SkewTCore.to_screen, SkewTCore.to_physical]
    rw [Real.log_exp]
    congr 1 <;> ring

/-- Witness for C1 at the concrete point p = 2, T = 5 and screen point
(3, 4), with skew factor 1. -/
theorem skew_transform_round_trip_witness :
    0 < (2 : ℝ) ∧
    (SkewTCore.to_physical ⟨1, 10, 1000, [], [], 5, 8, -20⟩
        (SkewTCore.to_screen ⟨1, 10, 1000, [], [], 5, 8, -20⟩ 2 5) = (2, 5) ∧
     SkewTCore.to_screen ⟨1, 10, 1000, [], [], 5, 8, -20⟩
        (SkewTCore.to_physical ⟨1, 10, 1000, [], [], 5, 8, -20⟩ (3, 4)).1
        (SkewTCore.to_physical ⟨1, 10, 1000, [], [], 5, 8, -20⟩ (3, 4)).2 = (3, 4)) :=
  ⟨by norm_num, skew_transform_round_trip ⟨1, 10, 1000, [], [], 5, 8, -20⟩ 2 5 (3, 4) (by norm_num)⟩

namespace SkewTCore

/-- Modelled from the spec: the constants of the dry-adiabat closed form
(§4.2): reference pressure `p₀` and the exponent `κ = R_d / c_p`. -/
structure AdiabatConfig where
  pRef : ℝ
  kappa : ℝ

/-- Modelled from the spec: `IsoplethGenerator` sampling of a dry adiabat
for potential temperature θ (§4.2):
`T(p) = θ * (p / p₀) ^ (R_d / c_p) - 273.15`
(Kelvin-to-Celsius conversion at the boundary). -/
noncomputable def dryAdiabatTemp (ac : AdiabatConfig) (θ p : ℝ) : ℝ :=
  θ * (p / ac.pRef) ^ ac.kappa - 273.15

/-- Modelled from the spec: recovering the potential temperature from one
(pressure, temperature) sample, inverting the dry-adiabat closed form. -/
noncomputable def thetaFromSample (ac : AdiabatConfig) (p T : ℝ) : ℝ :=
  (T + 273.15) * (ac.pRef / p) ^ ac.kappa

/-- Recomputing θ from any single dry-adiabat sample recovers θ exactly. -/
theorem thetaFromSample_dryAdiabatTemp (ac : AdiabatConfig) (θ p : ℝ)
    (hp : 0 < p) (hr : 0 < ac.pRef) :
    thetaFromSample ac p (dryAdiabatTemp ac θ p) = θ := by
  simp only [thetaFromSample, dryAdiabatTemp, sub_add_cancel]
  rw [mul_assoc, ← Real.mul_rpow (by positivity) (by positivity)]
  rw [div_mul_div_comm, mul_comm p ac.pRef, div_self (by positivity)]
  rw [Real.one_rpow, mul_one]

end SkewTCore

/-- C8: for a dry adiabat generated for potential temperature θ,
recomputing θ from the (pressure, temperature) sample at any two sampled
pressures yields the same θ (difference 0, hence within 1e-3): each sample
satisfies the closed form `T(p) = θ * (p / p₀) ^ (R_d / c_p) - 273.15`. -/
theorem dry_adiabat_theta_invariant (ac : SkewTCore.AdiabatConfig)
    (θ p₁ p₂ : ℝ) (h₁ : 0 < p₁) (h₂ : 0 < p₂) (hr : 0 < ac.pRef) :
    |SkewTCore.thetaFromSample ac p₁ (SkewTCore.dryAdiabatTemp ac θ p₁) -
     SkewTCore.thetaFromSample ac p₂ (SkewTCore.dryAdiabatTemp ac θ p₂)| ≤ 1 / 1000 := by
  rw [SkewTCore.thetaFromSample_dryAdiabatTemp ac θ p₁ h₁ hr,
      SkewTCore.thetaFromSample_dryAdiabatTemp ac θ p₂ h₂ hr]
  simp only [sub_self, abs_zero]
  norm_num

/-- Witness for C8 with p₀ = 1000, κ = 2/7, θ = 300, at pressures
1000 and 500. -/
theorem dry_adiabat_theta_invariant_witness :
    (0 < (1000 : ℝ) ∧ 0 < (500 : ℝ) ∧ 0 < (SkewTCore.AdiabatConfig.mk 1000 (2 / 7)).pRef) ∧
    |SkewTCore.thetaFromSample ⟨1000, 2 / 7⟩
        (1000 : ℝ) (SkewTCore.dryAdiabatTemp ⟨1000, 2 / 7⟩ 300 1000) -
     SkewTCore.thetaFromSample ⟨1000, 2 / 7⟩
        (500 : ℝ) (SkewTCore.dryAdiabatTemp ⟨1000, 2 / 7⟩ 300 500)| ≤ 1 / 1000 :=
  ⟨⟨by norm_num, by norm_num, by norm_num⟩,
   dry_adiabat_theta_invariant ⟨1000, 2 / 7⟩ 300 1000 500
     (by norm_num) (by norm_num) (by norm_num)⟩

namespace SkewTCore

/-- Modelled from the spec: configuration of the LCL root-finder (§4.3):
the lower end of the pressure search bracket and the iteration budget. -/
structure LCLConfig where
  searchFloor : ℚ
  iters : ℕ

/-- Modelled from the spec: bisection on pressure (§4.3). `g p` is the
difference at pressure `p` between the dry-adiabat temperature through the
surface point and the saturation mixing-ratio line temperature through the
surface dewpoint (the saturation formula itself is left open by the spec,
so `g` is a parameter). Returns the midpoint of the final bracket. -/
def bisect (g : ℚ → ℚ) (lo hi : ℚ) : ℕ → ℚ
  | 0 => (lo + hi) / 2
  | n + 1 =>
    let m := (lo + hi) / 2
    if g m ≤ 0 then bisect g m hi n else bisect g lo m n

/-- The bisection result stays strictly below the upper bracket end. -/
theorem bisect_lt_hi (g : ℚ → ℚ) :
    ∀ (n : ℕ) (lo hi : ℚ), lo < hi → bisect g lo hi n < hi := by
  intro n
  induction n with
  | zero => intro lo hi h; simp only [bisect]; linarith
  | succ k ih =>
    intro lo hi h
    simp only [bisect]
    have hm1 : lo < (lo + hi) / 2 := by linarith
    have hm2 : (lo + hi) / 2 < hi := by linarith
    by_cases hg : g ((lo + hi) / 2) ≤ 0
    · simp only [hg, if_true]
      exact ih ((lo + hi) / 2) hi hm2
    · simp only [hg, if_false]
      exact lt_trans (ih lo ((lo + hi) / 2) hm1) hm2

/-- Modelled from the spec: `compute_lcl(p0, T0, Td0) -> LCL` (§4.3). The
missing code is the external LCL routine. When the surface is unsaturated
(`Td0 < T0`), the LCL pressure is found by bisection between the search
floor and the surface pressure; `parcelT` gives the parcel (dry-adiabat)
temperature at the found pressure. A saturated surface is its own LCL. -/
def compute_lcl (cfg : LCLConfig) (g parcelT : ℚ → ℚ) (p0 T0 Td0 : ℚ) : ℚ × ℚ :=
  if Td0 < T0 then
    let pl := bisect g cfg.searchFloor p0 cfg.iters
    (pl, parcelT pl)
  else (p0, T0)

end SkewTCore

/-- C4: for every sounding whose surface dewpoint depression is strictly
positive (Td0 < T0), the LCL pressure returned by `compute_lcl` is strictly
below the surface pressure (the search floor lies below the surface). -/
theorem lcl_pressure_lt_surface (cfg : SkewTCore.LCLConfig)
    (g parcelT : ℚ → ℚ) (p0 T0 Td0 : ℚ)
    (hdep : Td0 < T0) (hbr : cfg.searchFloor < p0) :
    (SkewTCore.compute_lcl cfg g parcelT p0 T0 Td0).1 < p0 := by
  simp only [SkewTCore.compute_lcl, if_pos hdep]
  exact SkewTCore.bisect_lt_hi g cfg.iters cfg.searchFloor p0 hbr

/-- Witness for C4: surface (1000 hPa, 20 °C, dewpoint 15 °C), search floor
100 hPa, 20 bisection iterations, with a sample deficit function. -/
theorem lcl_pressure_lt_surface_witness :
    ((15 : ℚ) < 20 ∧ (SkewTCore.LCLConfig.mk 100 20).searchFloor < 1000) ∧
    (SkewTCore.compute_lcl ⟨100, 20⟩ (fun p => p - 900) (fun _ => 17) 1000 20 15).1 < 1000 :=
  ⟨⟨by norm_num, by norm_num⟩,
   lcl_pressure_lt_surface ⟨100, 20⟩ (fun p => p - 900) (fun _ => 17) 1000 20 15
     (by norm_num) (by norm_num)⟩

namespace SkewTCore

/-- Modelled from the spec: one sample handed to the
`ConvectiveEnergyIntegrator` (§4.4): a vertical coordinate `x`
(height-like, increasing upward, one of the coordinates the spec allows),
the environment temperature and the parcel temperature at that level. -/
structure EnergySample where
  x : ℚ
  envT : ℚ
  parcelT : ℚ

/-- Buoyancy `B = parcel_T - environment_T` (§4.4). -/
def buoy (s : EnergySample) : ℚ := s.parcelT - s.envT

/-- The (vertical coordinate, buoyancy) polyline of a sample list. -/
def buoyancyPoints (l : List EnergySample) : List (ℚ × ℚ) :=
  l.map (fun s => (s.x, buoy s))

/-- Modelled from the spec: split the buoyancy polyline into consecutive
segments, inserting the linearly interpolated zero-crossing point wherever
the buoyancy changes sign between two samples (§4.4, LFC/EL detection). -/
def refineSegs : List (ℚ × ℚ) → List ((ℚ × ℚ) × (ℚ × ℚ))
  | [] => []
  | [_] => []
  | a :: b :: t =>
    if a.2 * b.2 < 0 then
      let xz := a.1 + a.2 * (b.1 - a.1) / (a.2 - b.2)
      (a, (xz, 0)) :: ((xz, 0), b) :: refineSegs (b :: t)
    else
      (a, b) :: refineSegs (b :: t)

/-- Trapezoidal area of one refined segment (§4.4). -/
def segArea (s : (ℚ × ℚ) × (ℚ × ℚ)) : ℚ :=
  (s.1.2 + s.2.2) / 2 * (s.2.1 - s.1.1)

/-- A segment belongs to a positive-buoyancy region: both endpoint
buoyancies nonnegative and at least one strictly positive. -/
def isPosSeg (s : (ℚ × ℚ) × (ℚ × ℚ)) : Bool :=
  decide (0 ≤ s.1.2) && decide (0 ≤ s.2.2) && (decide (0 < s.1.2) || decide (0 < s.2.2))

/-- A segment belongs to a negative-buoyancy region: both endpoint
buoyancies nonpositive and at least one strictly negative. -/
def isNegSeg (s : (ℚ × ℚ) × (ℚ × ℚ)) : Bool :=
  decide (s.1.2 ≤ 0) && decide (s.2.2 ≤ 0) && (decide (s.1.2 < 0) || decide (s.2.2 < 0))

/-- Modelled from the spec: the positive constant converting the buoyancy
area over the vertical coordinate into energy units via the standard
hydrostatic relation (§4.4). -/
def energyFactor : ℚ := 981 / 25000

/-- Modelled from the spec: `BuoyancyRegion` (§3): a sign tag, the polygon
boundary used for shading, and the signed area in energy units. -/
structure BuoyancyRegion where
  positive : Bool
  poly : List (ℚ × ℚ)
  area : ℚ

/-- The shaded region contributed by one refined segment: the quadrilateral
between the buoyancy polyline and the zero line. -/
def regionOfSeg (b : Bool) (s : (ℚ × ℚ) × (ℚ × ℚ)) : BuoyancyRegion :=
  ⟨b, [(s.1.1, 0), s.1, s.2, (s.2.1, 0)], energyFactor * segArea s⟩

/-- Modelled from the spec:
`compute_cape_cin(environment_T(p), parcel_T(p)) -> (CAPE, CIN, regions)`
(§4.4). The missing code is the external CAPE/CIN routine. Sign-change
crossings delimit regions; positive-buoyancy segments accumulate into
CAPE, negative ones into CIN, by trapezoidal integration. -/
def compute_cape_cin (l : List EnergySample) :
    ℚ × ℚ × List BuoyancyRegion :=
  let segs := refineSegs (buoyancyPoints l)
  let pos := segs.filter isPosSeg
  let neg := segs.filter isNegSeg
  (energyFactor * (pos.map segArea).sum,
   energyFactor * (neg.map segArea).sum,
   pos.map (regionOfSeg true) ++ neg.map (regionOfSeg false))

/-- The interpolated zero crossing lies between the two sample abscissas. -/
theorem crossing_between (x₁ x₂ B₁ B₂ : ℚ) (hx : x₁ ≤ x₂) (hB : B₁ * B₂ < 0) :
    x₁ ≤ x₁ + B₁ * (x₂ - x₁) / (B₁ - B₂) ∧
    x₁ + B₁ * (x₂ - x₁) / (B₁ - B₂) ≤ x₂ := by
  rcases mul_neg_iff.mp hB with ⟨h₁, h₂⟩ | ⟨h₁, h₂⟩
  · have hd : 0 < B₁ - B₂ := by linarith
    constructor
    · have : 0 ≤ B₁ * (x₂ - x₁) / (B₁ - B₂) :=
        div_nonneg (mul_nonneg (le_of_lt h₁) (by linarith)) (le_of_lt hd)
      linarith
    · rw [← sub_nonneg]
      have : x₂ - (x₁ + B₁ * (x₂ - x₁) / (B₁ - B₂)) =
          (x₂ - x₁) * (-B₂) / (B₁ - B₂) := by
        field_simp
        ring
      rw [this]
      exact div_nonneg (mul_nonneg (by linarith) (by linarith)) (le_of_lt hd)
  · have hd : 0 < B₂ - B₁ := by linarith
    have hrw : B₁ * (x₂ - x₁) / (B₁ - B₂) = (-B₁) * (x₂ - x₁) / (B₂ - B₁) := by
      rw [div_eq_div_iff (by linarith) (by linarith)]
      ring
    constructor
    · have : 0 ≤ (-B₁) * (x₂ - x₁) / (B₂ - B₁) :=
        div_nonneg (mul_nonneg (by linarith) (by linarith)) (le_of_lt hd)
      rw [hrw]
      linarith
    · rw [hrw, ← sub_nonneg]
      have : x₂ - (x₁ + (-B₁) * (x₂ - x₁) / (B₂ - B₁)) =
          (x₂ - x₁) * B₂ / (B₂ - B₁) := by
        field_simp
        ring
      rw [this]
      exact div_nonneg (mul_nonneg (by linarith) (le_of_lt h₂)) (le_of_lt hd)

/-- Refinement preserves the left-to-right ordering of segment ends. -/
theorem refineSegs_mono :
    ∀ pts : List (ℚ × ℚ), List.Chain' (fun a b : ℚ × ℚ => a.1 ≤ b.1) pts →
      ∀ s ∈ refineSegs pts, s.1.1 ≤ s.2.1 := by
  intro pts
  induction pts with
  | nil => intro _ s hs; simp [refineSegs] at hs
  | cons a rest ih =>
    cases rest with
    | nil => intro _ s hs; simp [refineSegs] at hs
    | cons b t =>
      intro hch s hs
      have hab : a.1 ≤ b.1 := (List.chain'_cons.mp hch).1
      have hbt : List.Chain' (fun a b : ℚ × ℚ => a.1 ≤ b.1) (b :: t) :=
        (List.chain'_cons.mp hch).2
      by_cases hB : a.2 * b.2 < 0
      · have hcr := crossing_between a.1 b.1 a.2 b.2 hab hB
        simp only [refineSegs, if_pos hB, List.mem_cons] at hs
        rcases hs with h | h | h
        · rw [h]; exact hcr.1
        · rw [h]; exact hcr.2
        · exact ih hbt s h
      · simp only [refineSegs, if_neg hB, List.mem_cons] at hs
        rcases hs with h | h
        · rw [h]; exact hab
        · exact ih hbt s h

/-- A list of nonpositive rationals sums to a nonpositive value. -/
theorem list_sum_nonpos : ∀ l : List ℚ, (∀ q ∈ l, q ≤ 0) → l.sum ≤ 0 := by
  intro l
  induction l with
  | nil => intro _; simp
  | cons a t ih =>
    intro h
    rw [List.sum_cons]
    have ha := h a (List.mem_cons_self a t)
    have ht := ih (fun q hq => h q (List.mem_cons_of_mem a hq))
    linarith

end SkewTCore

/-- C2: for every valid profile pair (vertical coordinate strictly
increasing through the samples), `compute_cape_cin` returns CAPE ≥ 0 and
CIN ≤ 0. -/
theorem cape_nonneg_cin_nonpos (l : List SkewTCore.EnergySample)
    (hasc : List.Chain' (fun s t : SkewTCore.EnergySample => s.x < t.x) l) :
    0 ≤ (SkewTCore.compute_cape_cin l).1 ∧ (SkewTCore.compute_cape_cin l).2.1 ≤ 0 := by
  have hpts : List.Chain' (fun a b : ℚ × ℚ => a.1 ≤ b.1)
      (SkewTCore.buoyancyPoints l) := by
    rw [SkewTCore.buoyancyPoints, List.chain'_map]
    exact hasc.imp (fun a b h => le_of_lt h)
  have hmono := SkewTCore.refineSegs_mono (SkewTCore.buoyancyPoints l) hpts
  have hfac : (0 : ℚ) ≤ SkewTCore.energyFactor := by
    rw [SkewTCore.energyFactor]; norm_num
  constructor
  · simp only [SkewTCore.compute_cape_cin]
    refine mul_nonneg hfac (List.sum_nonneg ?_)
    intro a ha
    rcases List.mem_map.mp ha with ⟨s, hs, rfl⟩
    have hmem := List.mem_of_mem_filter hs
    have hpos := List.of_mem_filter hs
    rw [SkewTCore.isPosSeg] at hpos
    simp only [Bool.and_eq_true, decide_eq_true_eq] at hpos
    have hx := hmono s hmem
    rw [SkewTCore.segArea]
    have h1 := hpos.1.1
    have h2 := hpos.1.2
    nlinarith
  · simp only [SkewTCore.compute_cape_cin]
    have hsum : ((List.filter SkewTCore.isNegSeg
        (SkewTCore.refineSegs (SkewTCore.buoyancyPoints l))).map
          SkewTCore.segArea).sum ≤ 0 := by
      refine SkewTCore.list_sum_nonpos _ ?_
      intro a ha
      rcases List.mem_map.mp ha with ⟨s, hs, rfl⟩
      have hmem := List.mem_of_mem_filter hs
      have hneg := List.of_mem_filter hs
      rw [SkewTCore.isNegSeg] at hneg
      simp only [Bool.and_eq_true, decide_eq_true_eq] at hneg
      have hx := hmono s hmem
      rw [SkewTCore.segArea]
      have h1 := hneg.1.1
      have h2 := hneg.1.2
      nlinarith
    exact mul_nonpos_of_nonneg_of_nonpos hfac hsum

/-- Witness for C2 on a three-level profile with a sign change. -/
theorem cape_nonneg_cin_nonpos_witness :
    List.Chain' (fun s t : SkewTCore.EnergySample => s.x < t.x)
      [⟨0, 10, 12⟩, ⟨100, 10, 9⟩, ⟨250, 10, 11⟩] ∧
    (0 ≤ (SkewTCore.compute_cape_cin [⟨0, 10, 12⟩, ⟨100, 10, 9⟩, ⟨250, 10, 11⟩]).1 ∧
     (SkewTCore.compute_cape_cin [⟨0, 10, 12⟩, ⟨100, 10, 9⟩, ⟨250, 10, 11⟩]).2.1 ≤ 0) :=
  ⟨by simp only [List.chain'_cons, List.chain'_singleton, and_true]; norm_num,
   cape_nonneg_cin_nonpos [⟨0, 10, 12⟩, ⟨100, 10, 9⟩, ⟨250, 10, 11⟩]
     (by simp only [List.chain'_cons, List.chain'_singleton, and_true]; norm_num)⟩

namespace SkewTCore

/-- When every sample buoyancy is nonpositive, refinement inserts no
crossing and every refined segment keeps nonpositive endpoint buoyancies. -/
theorem refineSegs_nonpos :
    ∀ pts : List (ℚ × ℚ), (∀ q ∈ pts, q.2 ≤ 0) →
      ∀ s ∈ refineSegs pts, s.1.2 ≤ 0 ∧ s.2.2 ≤ 0 := by
  intro pts
  induction pts with
  | nil => intro _ s hs; simp [refineSegs] at hs
  | cons a rest ih =>
    cases rest with
    | nil => intro _ s hs; simp [refineSegs] at hs
    | cons b t =>
      intro h s hs
      have ha : a.2 ≤ 0 := h a (List.mem_cons_self a (b :: t))
      have hbb : b.2 ≤ 0 :=
        h b (List.mem_cons_of_mem a (List.mem_cons_self b t))
      have hB : ¬a.2 * b.2 < 0 := by nlinarith
      simp only [refineSegs, if_neg hB, List.mem_cons] at hs
      have hrest : ∀ q ∈ b :: t, q.2 ≤ 0 :=
        fun q hq => h q (List.mem_cons_of_mem a hq)
      rcases hs with hse | hse
      · rw [hse]; exact ⟨ha, hbb⟩
      · exact ih hrest s hse

end SkewTCore

/-- C5: when the buoyancy (parcel minus environment temperature) is never
positive at any sampled level, `compute_cape_cin` returns CAPE = 0 and
emits no positive-buoyancy region. -/
theorem cape_zero_no_positive_region (l : List SkewTCore.EnergySample)
    (hb : ∀ s ∈ l, s.parcelT ≤ s.envT) :
    (SkewTCore.compute_cape_cin l).1 = 0 ∧
    ∀ r ∈ (SkewTCore.compute_cape_cin l).2.2, r.positive = false := by
  have hpts : ∀ q ∈ SkewTCore.buoyancyPoints l, q.2 ≤ 0 := by
    intro q hq
    rcases List.mem_map.mp hq with ⟨s, hs, rfl⟩
    have := hb s hs
    simp only [SkewTCore.buoy]
    linarith
  have hsegs := SkewTCore.refineSegs_nonpos (SkewTCore.buoyancyPoints l) hpts
  have hfil : List.filter SkewTCore.isPosSeg
      (SkewTCore.refineSegs (SkewTCore.buoyancyPoints l)) = [] := by
    rw [List.filter_eq_nil_iff]
    intro s hs hcon
    have h := hsegs s hs
    rw [SkewTCore.isPosSeg] at hcon
    simp only [Bool.and_eq_true, Bool.or_eq_true, decide_eq_true_eq] at hcon
    rcases hcon.2 with h3 | h3
    · linarith [h.1]
    · linarith [h.2]
  constructor
  · simp only [SkewTCore.compute_cape_cin, hfil, List.map_nil, List.sum_nil, mul_zero]
  · simp only [SkewTCore.compute_cape_cin, hfil, List.map_nil, List.nil_append]
    intro r hr
    rcases List.mem_map.mp hr with ⟨s, _, rfl⟩
    rfl

/-- Witness for C5 on a two-level profile with the parcel everywhere
cooler than the environment. -/
theorem cape_zero_no_positive_region_witness :
    (∀ s ∈ ([⟨0, 15, 12⟩, ⟨100, 10, 9⟩] : List SkewTCore.EnergySample),
        s.parcelT ≤ s.envT) ∧
    ((SkewTCore.compute_cape_cin [⟨0, 15, 12⟩, ⟨100, 10, 9⟩]).1 = 0 ∧
     ∀ r ∈ (SkewTCore.compute_cape_cin [⟨0, 15, 12⟩, ⟨100, 10, 9⟩]).2.2,
        r.positive = false) :=
  ⟨by
      intro s hs
      simp only [List.mem_cons, List.not_mem_nil, or_false] at hs
      rcases hs with rfl | rfl <;> norm_num,
   cape_zero_no_positive_region [⟨0, 15, 12⟩, ⟨100, 10, 9⟩]
     (by
       intro s hs
       simp only [List.mem_cons, List.not_mem_nil, or_false] at hs
       rcases hs with rfl | rfl <;> norm_num)⟩

namespace SkewTCore

/-- One vertical level of a `SoundingProfile` (§3, §6). -/
structure SoundingLevel where
  height : ℚ
  pressure : ℚ
  temperature : ℚ
  dewpoint : ℚ
  uWind : ℚ
  vWind : ℚ

/-- Modelled from the spec: `SoundingProfile` (§3): an ordered sequence of
levels, pressure strictly decreasing with height. -/
structure SoundingProfile where
  levels : List SoundingLevel

/-- The typed failures of the core (§7). -/
inductive CoreError where
  | domainError
  | computationError
  | dataError

/-- Pressure strictly decreasing along the level sequence. -/
def pressuresDecreasingB : List SoundingLevel → Bool
  | [] => true
  | [_] => true
  | a :: b :: t => decide (b.pressure < a.pressure) && pressuresDecreasingB (b :: t)

/-- All validity checks of §7: positive pressure, dewpoint at most the
temperature, strictly decreasing pressure sequence. -/
def validB (s : SoundingProfile) : Bool :=
  (s.levels.all fun l => decide (0 < l.pressure)) &&
  (s.levels.all fun l => decide (l.dewpoint ≤ l.temperature)) &&
  pressuresDecreasingB s.levels

/-- Modelled from the spec: entry validation (§7): an input with a
non-positive pressure, a dewpoint above its temperature, or a pressure
sequence that is not strictly decreasing is rejected with `DomainError`
before any computation. -/
def validate (s : SoundingProfile) : Except CoreError Unit :=
  if validB s then Except.ok () else Except.error CoreError.domainError

/-- Environment/parcel samples of a sounding against a parcel temperature
curve (the parcel curve is a parameter; its formula is left open). -/
def toEnergySamples (parcelT : ℚ → ℚ) (s : SoundingProfile) : List EnergySample :=
  s.levels.map fun l => ⟨l.height, l.temperature, parcelT l.pressure⟩

/-- Modelled from the spec: the validated core entry point: validate the
sounding, then run the convective-energy computation. On a `DomainError`
no partial result is produced: the `Except.error` carries no output. -/
def runCore (parcelT : ℚ → ℚ) (s : SoundingProfile) :
    Except CoreError (ℚ × ℚ × List BuoyancyRegion) :=
  match validate s with
  | Except.error e => Except.error e
  | Except.ok _ => Except.ok (compute_cape_cin (toEnergySamples parcelT s))

end SkewTCore

/-- C6: any input with a non-positive pressure, a dewpoint strictly above
its temperature, or a non-strictly-decreasing pressure sequence makes the
core return `DomainError`, producing no (partial) result. -/
theorem domain_error_on_invalid_input (parcelT : ℚ → ℚ)
    (s : SkewTCore.SoundingProfile)
    (hbad : (∃ l ∈ s.levels, l.pressure ≤ 0) ∨
            (∃ l ∈ s.levels, l.temperature < l.dewpoint) ∨
            SkewTCore.pressuresDecreasingB s.levels = false) :
    SkewTCore.runCore parcelT s =
      Except.error SkewTCore.CoreError.domainError := by
  have hfalse : SkewTCore.validB s = false := by
    rcases Bool.eq_false_or_eq_true (SkewTCore.validB s) with h | h
    · exfalso
      rw [SkewTCore.validB, Bool.and_eq_true, Bool.and_eq_true] at h
      obtain ⟨⟨hA, hB⟩, hC⟩ := h
      rcases hbad with ⟨l, hl, hp⟩ | ⟨l, hl, hd⟩ | hmon
      · have := List.all_eq_true.mp hA l hl
        rw [decide_eq_true_eq] at this
        linarith
      · have := List.all_eq_true.mp hB l hl
        rw [decide_eq_true_eq] at this
        linarith
      · rw [hmon] at hC
        exact Bool.false_ne_true hC
    · exact h
  simp only [SkewTCore.runCore, SkewTCore.validate, hfalse, Bool.false_eq_true,
    if_false]

/-- Witness for C6: a one-level sounding with pressure -5 hPa. -/
theorem domain_error_on_invalid_input_witness :
    ((∃ l ∈ (SkewTCore.SoundingProfile.mk [⟨0, -5, 10, 5, 0, 0⟩]).levels,
        l.pressure ≤ 0) ∨
     (∃ l ∈ (SkewTCore.SoundingProfile.mk [⟨0, -5, 10, 5, 0, 0⟩]).levels,
        l.temperature < l.dewpoint) ∨
     SkewTCore.pressuresDecreasingB
       (SkewTCore.SoundingProfile.mk [⟨0, -5, 10, 5, 0, 0⟩]).levels = false) ∧
    SkewTCore.runCore (fun p => p) ⟨[⟨0, -5, 10, 5, 0, 0⟩]⟩ =
      Except.error SkewTCore.CoreError.domainError :=
  ⟨Or.inl ⟨⟨0, -5, 10, 5, 0, 0⟩, by simp, by norm_num⟩,
   domain_error_on_invalid_input (fun p => p) ⟨[⟨0, -5, 10, 5, 0, 0⟩]⟩
     (Or.inl ⟨⟨0, -5, 10, 5, 0, 0⟩, by simp, by norm_num⟩)⟩

namespace SkewTCore

/-- A sounding reduced to the three sequences the parcel solver reads. -/
structure RSounding where
  pressures : List ℝ
  temps : List ℝ
  dews : List ℝ

/-- Modelled from the spec: fixed-step forward integration of the
pseudoadiabatic ODE in log-pressure (§4.2, §4.3); the lapse function
`lapse y T` (saturation adiabatic lapse rate at log-pressure `y` and
temperature `T`) has no closed form pinned by the spec, so it is a
parameter. `h` is the step, applied `n` times from state `(y, T)`. -/
def eulerSteps (lapse : ℝ → ℝ → ℝ) (h : ℝ) : ℕ → ℝ → ℝ → ℝ
  | 0, _, T => T
  | n + 1, y, T => eulerSteps lapse h n (y + h) (T + h * lapse y T)

/-- With a zero step the integration state never moves. -/
theorem eulerSteps_zero_step (lapse : ℝ → ℝ → ℝ) :
    ∀ (n : ℕ) (y T : ℝ), eulerSteps lapse 0 n y T = T := by
  intro n
  induction n with
  | zero => intro y T; rfl
  | succ k ih =>
    intro y T
    rw [eulerSteps, zero_mul, add_zero, add_zero, ih]

/-- The dry-adiabatic branch of the parcel ascent (§4.3): the dry adiabat
through the surface point `(p0, T0)`, evaluated at pressure `p` (Celsius
at the boundary, Kelvin inside, exponent `κ = R_d / c_p`). -/
noncomputable def dryBranchTemp (κ p0 T0 p : ℝ) : ℝ :=
  (T0 + 273.15) * (p / p0) ^ κ - 273.15

/-- The pseudoadiabatic branch of the parcel ascent (§4.3): integrate the
saturation lapse ODE in log-pressure from the LCL state `(pl, Tl)` up to
pressure `p`, with `n` fixed steps. -/
noncomputable def pseudoBranchTemp (lapse : ℝ → ℝ → ℝ) (n : ℕ)
    (pl Tl p : ℝ) : ℝ :=
  eulerSteps lapse ((Real.log p - Real.log pl) / n) n (Real.log pl) Tl

/-- Modelled from the spec: `compute_parcel_profile(sounding)` (§4.3). The
missing code is the external parcel-profile routine. It reads only the
pressure levels and the surface temperature and dewpoint; `lclP` is the
LCL pressure solver (§4.3, formula left open) and `lapse` the
pseudoadiabatic lapse function. Dry-adiabatic from the surface to the LCL,
pseudoadiabatic above. -/
noncomputable def compute_parcel_profile (lapse : ℝ → ℝ → ℝ)
    (lclP : ℝ → ℝ → ℝ → ℝ) (κ : ℝ) (n : ℕ) (s : RSounding) :
    List (ℝ × ℝ) :=
  let p0 := s.pressures.headD 0
  let T0 := s.temps.headD 0
  let Td0 := s.dews.headD 0
  let pl := lclP p0 T0 Td0
  let Tl := dryBranchTemp κ p0 T0 pl
  s.pressures.map fun p =>
    (p, if pl ≤ p then dryBranchTemp κ p0 T0 p else pseudoBranchTemp lapse n pl Tl p)

end SkewTCore

/-- C3: the two branches of `compute_parcel_profile` are continuous at the
LCL: at the LCL pressure `lclP p0 T0 Td0`, the dry-adiabatic branch and
the pseudoadiabatic branch started from it differ by 0, hence agree within
0.05 °C, for every lapse function, LCL solver, exponent and step count. -/
theorem parcel_profile_continuous_at_lcl (lapse : ℝ → ℝ → ℝ)
    (lclP : ℝ → ℝ → ℝ → ℝ) (κ : ℝ) (n : ℕ) (p0 T0 Td0 : ℝ) :
    |SkewTCore.dryBranchTemp κ p0 T0 (lclP p0 T0 Td0) -
     SkewTCore.pseudoBranchTemp lapse n (lclP p0 T0 Td0)
       (SkewTCore.dryBranchTemp κ p0 T0 (lclP p0 T0 Td0))
       (lclP p0 T0 Td0)| ≤ 0.05 := by
  rw [SkewTCore.pseudoBranchTemp, sub_self, zero_div,
    SkewTCore.eulerSteps_zero_step, sub_self, abs_zero]
  norm_num

/-- C10: the parcel profile depends on the temperature and dewpoint
sequences only through their surface values: two soundings with the same
pressure levels, surface temperature and surface dewpoint receive the same
parcel profile, whatever their temperatures and dewpoints aloft. -/
theorem parcel_profile_depends_on_surface_only (lapse : ℝ → ℝ → ℝ)
    (lclP : ℝ → ℝ → ℝ → ℝ) (κ : ℝ) (n : ℕ) (s₁ s₂ : SkewTCore.RSounding)
    (hp : s₁.pressures = s₂.pressures)
    (hT : s₁.temps.headD 0 = s₂.temps.headD 0)
    (hTd : s₁.dews.headD 0 = s₂.dews.headD 0) :
    SkewTCore.compute_parcel_profile lapse lclP κ n s₁ =
    SkewTCore.compute_parcel_profile lapse lclP κ n s₂ := by
  simp only [SkewTCore.compute_parcel_profile, hp, hT, hTd]

/-- Witness for C10: two soundings sharing pressures and surface values
but differing aloft. -/
theorem parcel_profile_depends_on_surface_only_witness :
    ((SkewTCore.RSounding.mk [1000, 500] [25, 0] [20, -10]).pressures =
       (SkewTCore.RSounding.mk [1000, 500] [25, 9] [20, 7]).pressures ∧
     (SkewTCore.RSounding.mk [1000, 500] [25, 0] [20, -10]).temps.headD 0 =
       (SkewTCore.RSounding.mk [1000, 500] [25, 9] [20, 7]).temps.headD 0 ∧
     (SkewTCore.RSounding.mk [1000, 500] [25, 0] [20, -10]).dews.headD 0 =
       (SkewTCore.RSounding.mk [1000, 500] [25, 9] [20, 7]).dews.headD 0) ∧
    SkewTCore.compute_parcel_profile (fun _ _ => 0) (fun p _ _ => p / 2) (2 / 7) 3
        ⟨[1000, 500], [25, 0], [20, -10]⟩ =
      SkewTCore.compute_parcel_profile (fun _ _ => 0) (fun p _ _ => p / 2) (2 / 7) 3
        ⟨[1000, 500], [25, 9], [20, 7]⟩ :=
  ⟨⟨rfl, rfl, rfl⟩,
   parcel_profile_depends_on_surface_only (fun _ _ => 0) (fun p _ _ => p / 2)
     (2 / 7) 3 ⟨[1000, 500], [25, 0], [20, -10]⟩ ⟨[1000, 500], [25, 9], [20, 7]⟩
     rfl rfl rfl⟩

namespace SkewTCore

/-- Every stride-th element of a list, starting at the first: the
subsampling of pressure levels the barb placer uses (§4.5; the source
notebook writes it as slicing with step 5). -/
def takeEvery {α : Type} (s : ℕ) : List α → List α
  | [] => []
  | a :: t => a :: takeEvery s (t.drop (s - 1))
termination_by l => l.length
decreasing_by
  simp only [List.length_drop, List.length_cons]
  omega

/-- Stride-5 subsampling keeps ⌈N/5⌉ = (N + 4) / 5 elements. -/
theorem takeEvery_five_length {α : Type} :
    ∀ (n : ℕ) (l : List α), l.length ≤ n →
      (takeEvery 5 l).length = (l.length + 4) / 5 := by
  intro n
  induction n with
  | zero =>
    intro l h
    have hl : l = [] := List.length_eq_zero.mp (Nat.le_zero.mp h)
    rw [hl]
    simp [takeEvery]
  | succ k ih =>
    intro l h
    cases l with
    | nil => simp [takeEvery]
    | cons a t =>
      rw [takeEvery, List.length_cons, List.length_cons,
        ih (t.drop 4) (by rw [List.length_drop]; simp at h; omega),
        List.length_drop]
      omega

/-- One placed wind barb (§4.5): the screen anchor plus the speed and
direction the rendering collaborator draws as a glyph; the pressure level
it was placed for is kept alongside. -/
structure WindBarb where
  pressure : ℝ
  anchor : ℝ × ℝ
  speed : ℝ
  direction : ℝ

/-- Modelled from the spec: `WindBarbPlacer` (§4.5). The missing code is
the external barb-placement routine: subsample the levels `(p, u, v)` with
the given stride, and anchor each barb at the skew-transform image of its
pressure level, shifted by the fixed horizontal barb offset. -/
noncomputable def place_barbs (cfg : DiagramConfig) (stride : ℕ)
    (levels : List (ℝ × ℝ × ℝ)) : List WindBarb :=
  (takeEvery stride levels).map fun l =>
    ⟨l.1,
     ((to_screen cfg l.1 cfg.barbRefTemp).1 + cfg.barbOffset,
      (to_screen cfg l.1 cfg.barbRefTemp).2),
     Real.sqrt (l.2.1 ^ 2 + l.2.2 ^ 2),
     Real.arctan (l.2.2 / l.2.1)⟩

end SkewTCore

/-- C7: with stride 5 on an N-level sounding, the wind barb placer
produces exactly ⌈N/5⌉ = (N + 4) / 5 anchors, and each anchor lies on the
skew-transform image of its pressure level: it equals `to_screen` of that
pressure at some temperature (the horizontal barb offset only shifts the
temperature coordinate). -/
theorem barb_placement_stride_five (cfg : SkewTCore.DiagramConfig)
    (levels : List (ℝ × ℝ × ℝ)) :
    (SkewTCore.place_barbs cfg 5 levels).length = (levels.length + 4) / 5 ∧
    ∀ b ∈ SkewTCore.place_barbs cfg 5 levels,
      ∃ t, b.anchor = SkewTCore.to_screen cfg b.pressure t := by
  constructor
  · rw [SkewTCore.place_barbs, List.length_map,
      SkewTCore.takeEvery_five_length levels.length levels le_rfl]
  · intro b hb
    rcases List.mem_map.mp hb with ⟨l, _, rfl⟩
    refine ⟨cfg.barbRefTemp + cfg.barbOffset, ?_⟩
    simp only [SkewTCore.to_screen]
    congr 1
    ring

namespace SkewTCore

/-- A renderer-agnostic geometry item handed to the rendering collaborator
(§6): a screen polyline, a signed shaded region, a barb glyph, or a point
marker. -/
inductive GeomItem where
  | polyline (pts : List (ℝ × ℝ))
  | shadedRegion (positive : Bool) (pts : List (ℝ × ℝ))
  | barbGlyph (b : WindBarb)
  | marker (q : ℝ × ℝ)

/-- Everything one diagram render reads besides the configuration: the
numerical collaborators the spec leaves open and the sounding data. -/
structure RenderInput where
  lapse : ℝ → ℝ → ℝ
  lclP : ℝ → ℝ → ℝ → ℝ
  ac : AdiabatConfig
  steps : ℕ
  sounding : RSounding
  energy : List EnergySample
  barbLevels : List (ℝ × ℝ × ℝ)

/-- Emit the dry-adiabat isopleths (§4.2) into the draw context. -/
noncomputable def emitIsopleths (cfg : DiagramConfig) (ac : AdiabatConfig)
    (ctx : List GeomItem) : List GeomItem :=
  ctx ++ cfg.dryThetas.map fun θ =>
    GeomItem.polyline (cfg.samplePs.map fun p =>
      to_screen cfg p (dryAdiabatTemp ac θ p))

/-- Emit the environment temperature curve into the draw context. -/
noncomputable def emitEnvCurve (cfg : DiagramConfig) (s : RSounding)
    (ctx : List GeomItem) : List GeomItem :=
  ctx ++ [GeomItem.polyline ((s.pressures.zip s.temps).map fun q =>
    to_screen cfg q.1 q.2)]

/-- Emit the lifted-parcel curve (§4.3) into the draw context. -/
noncomputable def emitParcelCurve (cfg : DiagramConfig) (inp : RenderInput)
    (ctx : List GeomItem) : List GeomItem :=
  ctx ++ [GeomItem.polyline
    ((compute_parcel_profile inp.lapse inp.lclP inp.ac.kappa inp.steps
        inp.sounding).map fun q => to_screen cfg q.1 q.2)]

/-- Emit the CAPE/CIN shading polygons (§4.4) into the draw context. -/
def emitEnergyRegions (samples : List EnergySample)
    (ctx : List GeomItem) : List GeomItem :=
  ctx ++ (compute_cape_cin samples).2.2.map fun r =>
    GeomItem.shadedRegion r.positive (r.poly.map fun q =>
      ((q.1 : ℝ), (q.2 : ℝ)))

/-- Emit the wind barbs (§4.5) into the draw context. -/
noncomputable def emitBarbs (cfg : DiagramConfig)
    (levels : List (ℝ × ℝ × ℝ)) (ctx : List GeomItem) : List GeomItem :=
  ctx ++ (place_barbs cfg cfg.barbStride levels).map GeomItem.barbGlyph

/-- Modelled from the spec: one full diagram render (§5): the ordered pass
isopleths → environment curve → parcel profile → CAPE/CIN shading → barbs,
each component appending its geometry to the explicit draw context
(§9: the ambient drawing state made an explicit threaded object). -/
noncomputable def renderDiagram (cfg : DiagramConfig) (inp : RenderInput)
    (ctx : List GeomItem) : List GeomItem :=
  emitBarbs cfg inp.barbLevels
    (emitEnergyRegions inp.energy
      (emitParcelCurve cfg inp
        (emitEnvCurve cfg inp.sounding
          (emitIsopleths cfg inp.ac ctx))))

end SkewTCore

/-- C9: the render pass is a pure, deterministic, stateless function of
the configuration and its input: the geometry it appends to the draw
context does not depend on the context it starts from, so two runs on
equal inputs emit equal geometry and repeated renders of the same sounding
with the same configuration are idempotent (each render hands the renderer
the same geometry, namely the render from an empty context). -/
theorem render_pipeline_stateless (cfg : SkewTCore.DiagramConfig)
    (inp : SkewTCore.RenderInput) (ctx : List SkewTCore.GeomItem) :
    SkewTCore.renderDiagram cfg inp ctx =
      ctx ++ SkewTCore.renderDiagram cfg inp [] := by
  simp only [SkewTCore.renderDiagram, SkewTCore.emitBarbs,
    SkewTCore.emitEnergyRegions, SkewTCore.emitParcelCurve,
    SkewTCore.emitEnvCurve, SkewTCore.emitIsopleths, List.nil_append,
    List.append_assoc]
